import Mathlib

/-!
Verification of the cohort disaggregation and time-step accounting engine
of the multi-state lifetable model (`mslt_house/population.py` and
`mslt_house/disaggregate.py`), shallowly embedded over the reals.

The scipy root-finder `optimize.brentq` is modelled as an exact root of the
bracketing function inside `(0, 1)` when one exists; pandas tables are
modelled as functions from row indices (and column names) to reals.
-/

open scoped BigOperators

namespace MSLT

/-! ## Disaggregators (`population.py`) -/

/-- Embeds `Mortality.population_state_timestep_2state` (population.py line 145):
`new_pop = pop * np.exp(-rate)`. -/
noncomputable def population_state_timestep_2state (pop rate : ℝ) : ℝ :=
  pop * Real.exp (-rate)

/-- The bracketing function `f` of `Mortality.get_subpop_rates_2state`
(population.py line 156):
`f x = sum(sub_pops * x ** rate_ratios) - population_state_timestep_2state agg_pop agg_rate`.
The power is `np.power` with a real exponent, embedded as `Real.rpow`. -/
noncomputable def mortality_f {n : ℕ} (agg_pop agg_rate : ℝ)
    (sub_pops rate_ratios : Fin n → ℝ) (x : ℝ) : ℝ :=
  (∑ i, sub_pops i * x ^ rate_ratios i) -
    population_state_timestep_2state agg_pop agg_rate

/-- Embeds `scipy.optimize.brentq(f, 0, 1)` idealised: an exact root of `f`
in the open interval `(0, 1)` when one exists. -/
noncomputable def brentq (f : ℝ → ℝ) : ℝ :=
  haveI := Classical.propDecidable (∃ x, x ∈ Set.Ioo (0 : ℝ) 1 ∧ f x = 0)
  if h : ∃ x, x ∈ Set.Ioo (0 : ℝ) 1 ∧ f x = 0 then h.choose else 0

/-- Embeds `Mortality.get_subpop_rates_2state` (population.py lines 149-160).
The `agg_rate == 0` fast path returns `0 * rate_ratios`; when the bracket test
`f(0)*f(1) >= 0` fires the call never returns normally (the code enters
`pdb.set_trace()` and the subsequent `brentq` call raises), modelled as `none`;
otherwise the result is `-np.log(root) * rate_ratios`. -/
noncomputable def get_subpop_rates_2state {n : ℕ} (agg_pop agg_rate : ℝ)
    (sub_pops rate_ratios : Fin n → ℝ) : Option (Fin n → ℝ) :=
  if agg_rate = 0 then some (fun i => 0 * rate_ratios i)
  else if mortality_f agg_pop agg_rate sub_pops rate_ratios 0 *
      mortality_f agg_pop agg_rate sub_pops rate_ratios 1 ≥ 0 then none
  else some (fun i =>
    -Real.log (brentq (mortality_f agg_pop agg_rate sub_pops rate_ratios)) *
      rate_ratios i)

/-- Embeds `Disability.disaggregate_YLD` (population.py lines 259-269):
the `agg_yld == 0` fast path returns `0 * sub_py`, otherwise
`ref_YLD = agg_py * agg_yld / sum(sub_yld_ratios * sub_py)` and the result is
`ref_YLD * sub_yld_ratios`. -/
noncomputable def disaggregate_YLD {n : ℕ} (agg_py agg_yld : ℝ)
    (sub_py sub_yld_ratios : Fin n → ℝ) : Fin n → ℝ :=
  if agg_yld = 0 then fun i => 0 * sub_py i
  else fun i =>
    agg_py * agg_yld / (∑ j, sub_yld_ratios j * sub_py j) * sub_yld_ratios i

end MSLT

namespace MSLT

/-! ## Helper lemmas for the mortality root-finder -/

/-- When the bracketing function has a root in `(0, 1)`, `brentq` returns such a
root. -/
theorem brentq_spec (f : ℝ → ℝ) (h : ∃ x, x ∈ Set.Ioo (0 : ℝ) 1 ∧ f x = 0) :
    brentq f ∈ Set.Ioo (0 : ℝ) 1 ∧ f (brentq f) = 0 := by
  unfold brentq
  rw [dif_pos h]
  exact h.choose_spec

/-- With nonnegative rate ratios the bracketing function is continuous. -/
theorem mortality_f_continuous {n : ℕ} (agg_pop agg_rate : ℝ)
    (sub_pops rate_ratios : Fin n → ℝ) (hr : ∀ i, 0 ≤ rate_ratios i) :
    Continuous (mortality_f agg_pop agg_rate sub_pops rate_ratios) := by
  unfold mortality_f
  apply Continuous.sub _ continuous_const
  apply continuous_finset_sum
  intro i _
  exact continuous_const.mul (Real.continuous_rpow_const (hr i))

/-- A strict sign change of the bracketing function on `[0, 1]` yields a root
in the open interval, by the intermediate value theorem. -/
theorem mortality_f_has_root {n : ℕ} (agg_pop agg_rate : ℝ)
    (sub_pops rate_ratios : Fin n → ℝ) (hr : ∀ i, 0 ≤ rate_ratios i)
    (hbr : mortality_f agg_pop agg_rate sub_pops rate_ratios 0 *
      mortality_f agg_pop agg_rate sub_pops rate_ratios 1 < 0) :
    ∃ x, x ∈ Set.Ioo (0 : ℝ) 1 ∧
      mortality_f agg_pop agg_rate sub_pops rate_ratios x = 0 := by
  have hc : ContinuousOn (mortality_f agg_pop agg_rate sub_pops rate_ratios)
      (Set.Icc 0 1) :=
    (mortality_f_continuous agg_pop agg_rate sub_pops rate_ratios hr).continuousOn
  rcases mul_neg_iff.mp hbr with ⟨h0, h1⟩ | ⟨h0, h1⟩
  · obtain ⟨x, hx, hfx⟩ :=
      intermediate_value_Ioo' (by norm_num : (0 : ℝ) ≤ 1) hc ⟨h1, h0⟩
    exact ⟨x, hx, hfx⟩
  · obtain ⟨x, hx, hfx⟩ :=
      intermediate_value_Ioo (by norm_num : (0 : ℝ) ≤ 1) hc ⟨h0, h1⟩
    exact ⟨x, hx, hfx⟩

/-! ## Mortality disaggregation claims -/

/-- C1: whenever the sub-population sizes sum to the aggregate population, the
rate ratios are nonnegative, the aggregate rate is nonzero and the bracketing
function has a sign change on `[0, 1]`, the mortality disaggregator returns
rates `-log x* * rate_ratios i` satisfying
`sum(sub_pops i * exp (-sub_rates i)) = agg_pop * exp (-agg_rate)`
(exactly, for the idealised root, hence within any solver tolerance). -/
theorem get_subpop_rates_2state_conservation {n : ℕ} (agg_pop agg_rate : ℝ)
    (sub_pops rate_ratios : Fin n → ℝ)
    (hsum : (∑ i, sub_pops i) = agg_pop)
    (hr : ∀ i, 0 ≤ rate_ratios i)
    (hrate : agg_rate ≠ 0)
    (hbr : mortality_f agg_pop agg_rate sub_pops rate_ratios 0 *
      mortality_f agg_pop agg_rate sub_pops rate_ratios 1 < 0) :
    ∃ sub_rates,
      get_subpop_rates_2state agg_pop agg_rate sub_pops rate_ratios =
        some sub_rates ∧
      (∑ i, sub_pops i * Real.exp (-sub_rates i)) =
        agg_pop * Real.exp (-agg_rate) := by
  have hex := mortality_f_has_root agg_pop agg_rate sub_pops rate_ratios hr hbr
  obtain ⟨hmem, hroot⟩ := brentq_spec _ hex
  set x := brentq (mortality_f agg_pop agg_rate sub_pops rate_ratios) with hx
  refine ⟨fun i => -Real.log x * rate_ratios i, ?_, ?_⟩
  · unfold get_subpop_rates_2state
    rw [if_neg hrate, if_neg (not_le.mpr hbr)]
  · have hxpos : 0 < x := hmem.1
    have hterm : ∀ i : Fin n,
        Real.exp (-(-Real.log x * rate_ratios i)) = x ^ rate_ratios i := by
      intro i
      rw [Real.rpow_def_of_pos hxpos, neg_mul, neg_neg]
    have hsumx : (∑ i, sub_pops i * Real.exp (-(-Real.log x * rate_ratios i))) =
        ∑ i, sub_pops i * x ^ rate_ratios i :=
      Finset.sum_congr rfl fun i _ => by rw [hterm i]
    rw [hsumx]
    unfold mortality_f population_state_timestep_2state at hroot
    linarith

/-- C1 witness: a single stratum of size 1 with ratio 1, aggregate population 1
and aggregate rate 1 satisfies all the hypotheses, and the returned rates
conserve the surviving population. -/
theorem get_subpop_rates_2state_conservation_witness :
    ((∑ i, (![(1 : ℝ)]) i) = 1 ∧ (1 : ℝ) ≠ 0 ∧
      mortality_f 1 1 ![(1 : ℝ)] ![(1 : ℝ)] 0 *
        mortality_f 1 1 ![(1 : ℝ)] ![(1 : ℝ)] 1 < 0) ∧
    ∃ sub_rates,
      get_subpop_rates_2state 1 1 ![(1 : ℝ)] ![(1 : ℝ)] = some sub_rates ∧
      (∑ i, (![(1 : ℝ)]) i * Real.exp (-sub_rates i)) = 1 * Real.exp (-1) := by
  have h2 : Real.exp (-1 : ℝ) < 1 := Real.exp_lt_one_iff.mpr (by norm_num)
  have h1 : (0 : ℝ) < Real.exp (-1 : ℝ) := Real.exp_pos _
  have hbr : mortality_f 1 1 ![(1 : ℝ)] ![(1 : ℝ)] 0 *
      mortality_f 1 1 ![(1 : ℝ)] ![(1 : ℝ)] 1 < 0 := by
    unfold mortality_f population_state_timestep_2state
    simp only [Fin.sum_univ_one, Matrix.cons_val_zero, Real.rpow_one]
    nlinarith
  exact ⟨⟨by simp, by norm_num, hbr⟩,
    get_subpop_rates_2state_conservation 1 1 ![(1 : ℝ)] ![(1 : ℝ)]
      (by simp) (fun i => by fin_cases i <;> norm_num) (by norm_num) hbr⟩

/-- C2 (code evidence): with a zero-population stratum of nonzero ratio the
bracket test `f(0)*f(1) >= 0` of `get_subpop_rates_2state` fires, and the call
produces no per-stratum rates at all (the code enters the interactive
`pdb.set_trace()` breakpoint at population.py line 158 and the subsequent
`brentq` call raises a generic error); no `DisaggregationUnsolvableError` is
raised anywhere. -/
theorem get_subpop_rates_2state_unbracketed_no_rates :
    mortality_f 1 (Real.log 2) ![(0 : ℝ)] ![(1 : ℝ)] 0 *
      mortality_f 1 (Real.log 2) ![(0 : ℝ)] ![(1 : ℝ)] 1 ≥ 0 ∧
    get_subpop_rates_2state 1 (Real.log 2) ![(0 : ℝ)] ![(1 : ℝ)] = none := by
  have hlog : (0 : ℝ) < Real.log 2 := Real.log_pos (by norm_num)
  have hexp : Real.exp (-Real.log 2) = 1 / 2 := by
    rw [Real.exp_neg, Real.exp_log (by norm_num : (0 : ℝ) < 2)]
    norm_num
  have hbr : mortality_f 1 (Real.log 2) ![(0 : ℝ)] ![(1 : ℝ)] 0 *
      mortality_f 1 (Real.log 2) ![(0 : ℝ)] ![(1 : ℝ)] 1 ≥ 0 := by
    unfold mortality_f population_state_timestep_2state
    simp only [Fin.sum_univ_one, Matrix.cons_val_zero, Real.rpow_one, hexp]
    norm_num
  refine ⟨hbr, ?_⟩
  unfold get_subpop_rates_2state
  rw [if_neg (ne_of_gt hlog), if_pos hbr]

/-- C6 counterexample: a single stratum whose sub-population (1) equals the
aggregate population and whose aggregate rate `log 2` is nonzero, but with
ratio 0: the bracketing function is constant, the solver finds no root, and
the call returns no rates at all — in particular not the aggregate rate. -/
theorem get_subpop_rates_2state_single_stratum_zero_ratio_fails :
    ¬ ∃ sub_rates,
      get_subpop_rates_2state 1 (Real.log 2) ![(1 : ℝ)] ![(0 : ℝ)] =
        some sub_rates ∧ sub_rates 0 = Real.log 2 := by
  have hlog : (0 : ℝ) < Real.log 2 := Real.log_pos (by norm_num)
  have hexp : Real.exp (-Real.log 2) = 1 / 2 := by
    rw [Real.exp_neg, Real.exp_log (by norm_num : (0 : ℝ) < 2)]
    norm_num
  have hnone : get_subpop_rates_2state 1 (Real.log 2) ![(1 : ℝ)] ![(0 : ℝ)] =
      none := by
    unfold get_subpop_rates_2state
    rw [if_neg (ne_of_gt hlog), if_pos]
    unfold mortality_f population_state_timestep_2state
    simp only [Fin.sum_univ_one, Matrix.cons_val_zero, Real.rpow_zero, hexp]
    norm_num
  rintro ⟨sub_rates, hsome, -⟩
  rw [hnone] at hsome
  exact Option.noConfusion hsome

/-- C6 (amended): for a single stratum with positive sub-population equal to
the aggregate population, positive aggregate rate and positive ratio, the
mortality disaggregator returns the aggregate rate unchanged:
`sub_rates 0 = agg_rate`. -/
theorem get_subpop_rates_2state_single_stratum (p m r : ℝ)
    (hp : 0 < p) (hm : 0 < m) (hr : 0 < r) :
    ∃ sub_rates,
      get_subpop_rates_2state p m ![p] ![r] = some sub_rates ∧
      sub_rates 0 = m := by
  have hexp1 : Real.exp (-m) < 1 := Real.exp_lt_one_iff.mpr (by linarith)
  have hexp0 : (0 : ℝ) < Real.exp (-m) := Real.exp_pos _
  have heval : ∀ x : ℝ, mortality_f p m ![p] ![r] x = p * x ^ r - p * Real.exp (-m) := by
    intro x
    unfold mortality_f population_state_timestep_2state
    simp [Fin.sum_univ_one]
  have hbr : mortality_f p m ![p] ![r] 0 * mortality_f p m ![p] ![r] 1 < 0 := by
    rw [heval 0, heval 1, Real.zero_rpow (ne_of_gt hr), Real.one_rpow]
    have h1 : 0 < p * Real.exp (-m) := mul_pos hp hexp0
    have h2 : 0 < p * (1 - Real.exp (-m)) := mul_pos hp (by linarith)
    nlinarith [h1, h2]
  have hex := mortality_f_has_root p m ![p] ![r]
    (fun i => by fin_cases i <;> exact hr.le) hbr
  obtain ⟨hmem, hroot⟩ := brentq_spec _ hex
  set x := brentq (mortality_f p m ![p] ![r]) with hx
  refine ⟨fun i => -Real.log x * (![r]) i, ?_, ?_⟩
  · unfold get_subpop_rates_2state
    rw [if_neg (ne_of_gt hm), if_neg (not_le.mpr hbr)]
  · have hxpos : 0 < x := hmem.1
    rw [heval x] at hroot
    have hpow : x ^ r = Real.exp (-m) := by
      have := sub_eq_zero.mp hroot
      exact mul_left_cancel₀ (ne_of_gt hp) this
    have hlogpow : r * Real.log x = -m := by
      have h1 := Real.log_rpow hxpos r
      rw [hpow, Real.log_exp] at h1
      linarith [h1]
    show -Real.log x * (![r]) 0 = m
    simp only [Matrix.cons_val_zero]
    linarith [hlogpow]

/-- C6 (amended) witness: a single stratum of size 1 with ratio 2 and
aggregate rate 1 gets back exactly the aggregate rate 1. -/
theorem get_subpop_rates_2state_single_stratum_witness :
    ((0 : ℝ) < 1 ∧ (0 : ℝ) < 1 ∧ (0 : ℝ) < 2) ∧
    ∃ sub_rates,
      get_subpop_rates_2state 1 1 ![(1 : ℝ)] ![(2 : ℝ)] = some sub_rates ∧
      sub_rates 0 = 1 :=
  ⟨⟨by norm_num, by norm_num, by norm_num⟩,
    get_subpop_rates_2state_single_stratum 1 1 2 (by norm_num) (by norm_num)
      (by norm_num)⟩

/-! ## BAU track (C3) -/

/-- Embeds the BAU mortality rate assignment (population.py line 213):
`pop.bau_acmr = self.mortality_agg.source(event.index)` — every stratum of a
cohort receives the unmodified aggregate source rate directly; the
heterogeneity (disaggregation) code is not applied to the BAU track. -/
def bau_acmr (n : ℕ) (src_agg_rate : ℝ) : Fin n → ℝ := fun _ => src_agg_rate

/-- The claim's reading of the BAU mortality step: the BAU track performs the
same per-stratum disaggregation as the intervention track, drawing the rate
from the unmodified baseline source. Stated from the spec's words, to be
compared with `bau_acmr` from the source. -/
noncomputable def bau_acmr_claimed (n : ℕ) (agg_pop src_agg_rate : ℝ)
    (sub_pops rate_ratios : Fin n → ℝ) : Option (Fin n → ℝ) :=
  get_subpop_rates_2state agg_pop src_agg_rate sub_pops rate_ratios

/-- C3 counterexample: for the cohort with sub-populations `[1, 1]`, ratios
`[0, 1]` and baseline aggregate rate `log (4/3)`, the per-stratum
disaggregation the claim ascribes to the BAU track yields rate 0 for the
ratio-0 stratum, whereas the code assigns the aggregate source rate
`log (4/3) ≠ 0` to every stratum: the BAU track does not disaggregate. -/
theorem bau_track_does_not_disaggregate :
    bau_acmr_claimed 2 2 (Real.log (4/3)) ![(1 : ℝ), 1] ![(0 : ℝ), 1] ≠
      some (bau_acmr 2 (Real.log (4/3))) := by
  have hlog : (0 : ℝ) < Real.log (4/3) := Real.log_pos (by norm_num)
  have hexp : Real.exp (-Real.log (4/3)) = 3 / 4 := by
    rw [Real.exp_neg, Real.exp_log (by norm_num : (0 : ℝ) < 4/3)]
    norm_num
  have heval : ∀ x : ℝ,
      mortality_f 2 (Real.log (4/3)) ![(1 : ℝ), 1] ![(0 : ℝ), 1] x =
        x ^ (0 : ℝ) + x ^ (1 : ℝ) - 3 / 2 := by
    intro x
    unfold mortality_f population_state_timestep_2state
    rw [hexp]
    simp [Fin.sum_univ_two]
    ring
  have hbr : mortality_f 2 (Real.log (4/3)) ![(1 : ℝ), 1] ![(0 : ℝ), 1] 0 *
      mortality_f 2 (Real.log (4/3)) ![(1 : ℝ), 1] ![(0 : ℝ), 1] 1 < 0 := by
    rw [heval 0, heval 1, Real.rpow_zero, Real.rpow_zero, Real.rpow_one,
      Real.rpow_one]
    norm_num
  intro habs
  unfold bau_acmr_claimed get_subpop_rates_2state at habs
  rw [if_neg (ne_of_gt hlog), if_neg (not_le.mpr hbr)] at habs
  have h0 := congrFun (Option.some_injective _ habs) 0
  simp only [Matrix.cons_val_zero, mul_zero, bau_acmr] at h0
  exact (ne_of_gt hlog) h0.symm

end MSLT

namespace MSLT

/-! ## Per-stratum time-step state machine

The population table columns read and written by the `BasePopulation`,
`Mortality` and `Disability` handlers (population.py lines 65-70), for one
stratum row, carrying both the intervention and BAU tracks. The vivarium
population views of `Mortality` and `Disability` do not include the `tracked`
column, so the framework restricts them to tracked rows; untracked rows are
excluded from every handler (spec: retired cohorts are frozen, excluded from
further processing). This filtering is modelled by the `tracked` guards. -/

structure Stratum where
  age : ℤ
  tracked : Bool
  population : ℝ
  acmr : ℝ
  pr_death : ℝ
  deaths : ℝ
  person_years : ℝ
  yld_rate : ℝ
  HALY : ℝ
  bau_population : ℝ
  bau_acmr : ℝ
  bau_pr_death : ℝ
  bau_deaths : ℝ
  bau_person_years : ℝ
  bau_yld_rate : ℝ
  bau_HALY : ℝ

/-- Embeds `BasePopulation.on_time_step_prepare` (population.py lines 96-103)
for one stratum row: only rows with `tracked == True` are fetched; ages are
increased except on the first time step; rows whose age exceeds `max_age`
become untracked. -/
def on_time_step_prepare (first_step : Bool) (max_age : ℤ) (s : Stratum) :
    Stratum :=
  if s.tracked then
    if (if first_step then s else { s with age := s.age + 1 }).age > max_age then
      { (if first_step then s else { s with age := s.age + 1 }) with
          tracked := false }
    else (if first_step then s else { s with age := s.age + 1 })
  else s

/-- Embeds one stratum row's update in `Mortality.on_time_step`
(population.py lines 204-219), with the disaggregated `acmr` already computed
for this row and `bau_rate` the unmodified aggregate source rate. The
intervention track (lines 204-210): `pr_death = 1 - exp(-acmr)`;
`deaths = population * pr_death`; `population *= 1 - pr_death`;
`person_years = population + 0.5 * deaths` (the updated population). The BAU
track (lines 212-219) applies the same formulas to the BAU columns with
`bau_rate`. -/
noncomputable def mortality_on_time_step (acmr bau_rate : ℝ) (s : Stratum) :
    Stratum :=
  if s.tracked then
    { s with
      acmr := acmr
      pr_death := 1 - Real.exp (-acmr)
      deaths := s.population * (1 - Real.exp (-acmr))
      population := s.population * (1 - (1 - Real.exp (-acmr)))
      person_years := s.population * (1 - (1 - Real.exp (-acmr))) +
        0.5 * (s.population * (1 - Real.exp (-acmr)))
      bau_acmr := bau_rate
      bau_pr_death := 1 - Real.exp (-bau_rate)
      bau_deaths := s.bau_population * (1 - Real.exp (-bau_rate))
      bau_population := s.bau_population * (1 - (1 - Real.exp (-bau_rate)))
      bau_person_years := s.bau_population * (1 - (1 - Real.exp (-bau_rate))) +
        0.5 * (s.bau_population * (1 - Real.exp (-bau_rate))) }
  else s

/-- Embeds one stratum row's update in `Disability.on_time_step`
(population.py lines 309-313), with the disaggregated `yld` already computed
for this row and `bau_yld` the unmodified aggregate source YLD rate:
`HALY = person_years * (1 - yld_rate)`, and the same formula on the BAU
columns. -/
noncomputable def disability_on_time_step (yld bau_yld : ℝ) (s : Stratum) :
    Stratum :=
  if s.tracked then
    { s with
      yld_rate := yld
      HALY := s.person_years * (1 - yld)
      bau_yld_rate := bau_yld
      bau_HALY := s.bau_person_years * (1 - bau_yld) }
  else s

/-- One full simulation step for one stratum: prepare, then mortality, then
disability (the `time_step__prepare` event precedes `time_step`; mortality is
registered before disability). -/
noncomputable def time_step (first_step : Bool) (max_age : ℤ)
    (acmr bau_rate yld bau_yld : ℝ) (s : Stratum) : Stratum :=
  disability_on_time_step yld bau_yld
    (mortality_on_time_step acmr bau_rate
      (on_time_step_prepare first_step max_age s))

/-- The trajectory of one stratum under a sequence of steps, with per-step
rate inputs. -/
noncomputable def trajectory (max_age : ℤ) (firsts : ℕ → Bool)
    (acmrs bau_acmrs ylds bau_ylds : ℕ → ℝ) (s0 : Stratum) : ℕ → Stratum
  | 0 => s0
  | t + 1 => time_step (firsts t) max_age (acmrs t) (bau_acmrs t) (ylds t)
      (bau_ylds t) (trajectory max_age firsts acmrs bau_acmrs ylds bau_ylds s0 t)

/-! ## Frame lemmas for the step functions -/

/-- Prepare never changes the population column. -/
theorem prepare_population (first_step : Bool) (max_age : ℤ) (s : Stratum) :
    (on_time_step_prepare first_step max_age s).population = s.population := by
  unfold on_time_step_prepare
  by_cases h1 : s.tracked
  · rw [if_pos h1]
    by_cases h2 : first_step
    · rw [if_pos h2]
      by_cases h3 : s.age > max_age
      · rw [if_pos h3]
      · rw [if_neg h3]
    · rw [if_neg h2]
      by_cases h3 : s.age + 1 > max_age
      · rw [if_pos h3]
      · rw [if_neg h3]
  · rw [if_neg h1]

/-- Disability never changes the population column. -/
theorem disability_population (yld bau_yld : ℝ) (s : Stratum) :
    (disability_on_time_step yld bau_yld s).population = s.population := by
  unfold disability_on_time_step
  by_cases h : s.tracked
  · rw [if_pos h]
  · rw [if_neg h]

/-- The mortality step multiplies the population by the survival fraction:
with a nonnegative rate and nonnegative population, the population does not
increase and stays nonnegative. -/
theorem mortality_population_le (acmr bau_rate : ℝ) (s : Stratum)
    (hpop : 0 ≤ s.population) (hacmr : 0 ≤ acmr) :
    (mortality_on_time_step acmr bau_rate s).population ≤ s.population ∧
    0 ≤ (mortality_on_time_step acmr bau_rate s).population := by
  unfold mortality_on_time_step
  by_cases h : s.tracked
  · rw [if_pos h]
    have hkey : (1 : ℝ) - (1 - Real.exp (-acmr)) = Real.exp (-acmr) := by ring
    have he1 : Real.exp (-acmr) ≤ 1 := by
      rw [← Real.exp_zero]
      exact Real.exp_le_exp.mpr (by linarith)
    have he0 : (0 : ℝ) < Real.exp (-acmr) := Real.exp_pos _
    constructor
    · show s.population * (1 - (1 - Real.exp (-acmr))) ≤ s.population
      rw [hkey]
      exact mul_le_of_le_one_right hpop he1
    · show 0 ≤ s.population * (1 - (1 - Real.exp (-acmr)))
      rw [hkey]
      exact mul_nonneg hpop he0.le
  · rw [if_neg h]
    exact ⟨le_refl _, hpop⟩

/-- A full step does not increase the population and keeps it nonnegative. -/
theorem time_step_population (first_step : Bool) (max_age : ℤ)
    (acmr bau_rate yld bau_yld : ℝ) (s : Stratum)
    (hpop : 0 ≤ s.population) (hacmr : 0 ≤ acmr) :
    (time_step first_step max_age acmr bau_rate yld bau_yld s).population ≤
      s.population ∧
    0 ≤ (time_step first_step max_age acmr bau_rate yld bau_yld s).population := by
  unfold time_step
  rw [disability_population]
  have hprep := prepare_population first_step max_age s
  have := mortality_population_le acmr bau_rate
    (on_time_step_prepare first_step max_age s) (hprep ▸ hpop) hacmr
  rw [hprep] at this
  exact this

/-- The prepare handler leaves an untracked stratum exactly unchanged. -/
theorem prepare_untracked (first_step : Bool) (max_age : ℤ) (s : Stratum)
    (h : s.tracked = false) :
    on_time_step_prepare first_step max_age s = s := by
  unfold on_time_step_prepare
  rw [h]
  simp

/-- The mortality handler leaves an untracked stratum exactly unchanged. -/
theorem mortality_untracked (acmr bau_rate : ℝ) (s : Stratum)
    (h : s.tracked = false) :
    mortality_on_time_step acmr bau_rate s = s := by
  unfold mortality_on_time_step
  rw [h]
  simp

/-- The disability handler leaves an untracked stratum exactly unchanged. -/
theorem disability_untracked (yld bau_yld : ℝ) (s : Stratum)
    (h : s.tracked = false) :
    disability_on_time_step yld bau_yld s = s := by
  unfold disability_on_time_step
  rw [h]
  simp

/-- Every step handler leaves an untracked stratum exactly unchanged. -/
theorem time_step_untracked (first_step : Bool) (max_age : ℤ)
    (acmr bau_rate yld bau_yld : ℝ) (s : Stratum) (h : s.tracked = false) :
    time_step first_step max_age acmr bau_rate yld bau_yld s = s := by
  unfold time_step
  rw [prepare_untracked first_step max_age s h,
    mortality_untracked acmr bau_rate s h,
    disability_untracked yld bau_yld s h]

/-! ## Step-engine claims -/

/-- C5: after the disaggregated per-stratum acmr is written back, each
processed stratum is updated by exactly the claim's formulas:
`pr_death = 1 - exp (-acmr)`, `deaths = population_before * pr_death`,
`population_after = population_before * (1 - pr_death)` and
`person_years = population_after + 0.5 * deaths`. -/
theorem mortality_update_formulas (s : Stratum) (acmr bau_rate : ℝ)
    (h : s.tracked = true) :
    (mortality_on_time_step acmr bau_rate s).pr_death =
      1 - Real.exp (-acmr) ∧
    (mortality_on_time_step acmr bau_rate s).deaths =
      s.population * (mortality_on_time_step acmr bau_rate s).pr_death ∧
    (mortality_on_time_step acmr bau_rate s).population =
      s.population * (1 - (mortality_on_time_step acmr bau_rate s).pr_death) ∧
    (mortality_on_time_step acmr bau_rate s).person_years =
      (mortality_on_time_step acmr bau_rate s).population +
        0.5 * (mortality_on_time_step acmr bau_rate s).deaths := by
  unfold mortality_on_time_step
  rw [if_pos h]
  exact ⟨rfl, rfl, rfl, rfl⟩

/-- C5 witness: a concrete tracked stratum with population 100 and acmr 1 is
updated by exactly the four formulas. -/
theorem mortality_update_formulas_witness :
    ((⟨50, true, 100, 0, 0, 0, 0, 0, 0, 100, 0, 0, 0, 0, 0, 0⟩ :
        Stratum).tracked = true) ∧
    (mortality_on_time_step 1 1
        (⟨50, true, 100, 0, 0, 0, 0, 0, 0, 100, 0, 0, 0, 0, 0, 0⟩ :
          Stratum)).pr_death = 1 - Real.exp (-1) :=
  ⟨rfl, (mortality_update_formulas
    (⟨50, true, 100, 0, 0, 0, 0, 0, 0, 100, 0, 0, 0, 0, 0, 0⟩ : Stratum)
    1 1 rfl).1⟩

/-- C3 (amended): the BAU track runs exactly the same per-stratum update
formulas as the intervention track, in the same prepare → mortality →
disability order, always drawing the unmodified aggregate source rate — but
applies that aggregate rate directly and uniformly to every stratum, without
per-stratum disaggregation. -/
theorem bau_track_same_formulas_from_source (s : Stratum)
    (acmr bau_rate yld bau_yld : ℝ) (h : s.tracked = true) :
    (mortality_on_time_step acmr bau_rate s).bau_acmr = bau_rate ∧
    (mortality_on_time_step acmr bau_rate s).bau_pr_death =
      1 - Real.exp (-bau_rate) ∧
    (mortality_on_time_step acmr bau_rate s).bau_deaths =
      s.bau_population *
        (mortality_on_time_step acmr bau_rate s).bau_pr_death ∧
    (mortality_on_time_step acmr bau_rate s).bau_population =
      s.bau_population *
        (1 - (mortality_on_time_step acmr bau_rate s).bau_pr_death) ∧
    (mortality_on_time_step acmr bau_rate s).bau_person_years =
      (mortality_on_time_step acmr bau_rate s).bau_population +
        0.5 * (mortality_on_time_step acmr bau_rate s).bau_deaths ∧
    (disability_on_time_step yld bau_yld s).bau_HALY =
      s.bau_person_years * (1 - bau_yld) := by
  unfold mortality_on_time_step disability_on_time_step
  rw [if_pos h, if_pos h]
  exact ⟨rfl, rfl, rfl, rfl, rfl, rfl⟩

/-- C3 (amended) witness: at a concrete tracked stratum the BAU mortality
columns follow the intervention formulas with the source rate. -/
theorem bau_track_same_formulas_from_source_witness :
    ((⟨50, true, 100, 0, 0, 0, 0, 0, 0, 100, 0, 0, 0, 0, 0, 0⟩ :
        Stratum).tracked = true) ∧
    (mortality_on_time_step 1 2
        (⟨50, true, 100, 0, 0, 0, 0, 0, 0, 100, 0, 0, 0, 0, 0, 0⟩ :
          Stratum)).bau_acmr = 2 :=
  ⟨rfl, (bau_track_same_formulas_from_source
    (⟨50, true, 100, 0, 0, 0, 0, 0, 0, 100, 0, 0, 0, 0, 0, 0⟩ : Stratum)
    1 2 3 4 rfl).1⟩

/-- C7: along a scenario track with nonnegative mortality rates and a
nonnegative initial population, the population is monotonically
non-increasing across time steps, and the death probability applied at each
step satisfies `0 <= pr_death <= 1`. -/
theorem population_monotone (max_age : ℤ) (firsts : ℕ → Bool)
    (acmrs bau_acmrs ylds bau_ylds : ℕ → ℝ) (s0 : Stratum)
    (hpop : 0 ≤ s0.population)
    (hacmr : ∀ t, 0 ≤ acmrs t) :
    ∀ t,
      (trajectory max_age firsts acmrs bau_acmrs ylds bau_ylds s0
          (t + 1)).population ≤
        (trajectory max_age firsts acmrs bau_acmrs ylds bau_ylds s0
          t).population ∧
      0 ≤ 1 - Real.exp (-(acmrs t)) ∧ 1 - Real.exp (-(acmrs t)) ≤ 1 := by
  have hnn : ∀ t, 0 ≤ (trajectory max_age firsts acmrs bau_acmrs ylds
      bau_ylds s0 t).population := by
    intro t
    induction t with
    | zero => exact hpop
    | succ t ih =>
      exact (time_step_population (firsts t) max_age (acmrs t) (bau_acmrs t)
        (ylds t) (bau_ylds t) _ ih (hacmr t)).2
  intro t
  refine ⟨?_, ?_, ?_⟩
  · exact (time_step_population (firsts t) max_age (acmrs t) (bau_acmrs t)
      (ylds t) (bau_ylds t) _ (hnn t) (hacmr t)).1
  · have : Real.exp (-(acmrs t)) ≤ 1 := by
      rw [← Real.exp_zero]
      exact Real.exp_le_exp.mpr (by linarith [hacmr t])
    linarith
  · linarith [Real.exp_pos (-(acmrs t))]

/-- C7 witness: from a tracked stratum with population 100 and constant unit
mortality rate, the population after the first step does not exceed the
initial population and the applied death probability lies in the unit
interval. -/
theorem population_monotone_witness :
    ((0 : ℝ) ≤ 100 ∧ (0 : ℝ) ≤ 1) ∧
    ((trajectory 110 (fun _ => true) (fun _ => 1) (fun _ => 1)
        (fun _ => 0) (fun _ => 0)
        (⟨50, true, 100, 0, 0, 0, 0, 0, 0, 100, 0, 0, 0, 0, 0, 0⟩ : Stratum)
        1).population ≤
      (trajectory 110 (fun _ => true) (fun _ => 1) (fun _ => 1)
        (fun _ => 0) (fun _ => 0)
        (⟨50, true, 100, 0, 0, 0, 0, 0, 0, 100, 0, 0, 0, 0, 0, 0⟩ : Stratum)
        0).population ∧
      0 ≤ 1 - Real.exp (-(1 : ℝ)) ∧ 1 - Real.exp (-(1 : ℝ)) ≤ 1) :=
  ⟨⟨by norm_num, by norm_num⟩,
    population_monotone 110 (fun _ => true) (fun _ => 1) (fun _ => 1)
      (fun _ => 0) (fun _ => 0)
      (⟨50, true, 100, 0, 0, 0, 0, 0, 0, 100, 0, 0, 0, 0, 0, 0⟩ : Stratum)
      (by norm_num) (fun t => by norm_num) 0⟩

/-- C8: once the prepare handler has marked a stratum untracked, the stratum
is untracked at every subsequent step and its state is frozen — every later
prepare, mortality and disability operation leaves it exactly unchanged. -/
theorem untracked_stratum_frozen (first_step : Bool) (max_age : ℤ)
    (firsts : ℕ → Bool) (acmrs bau_acmrs ylds bau_ylds : ℕ → ℝ) (s : Stratum)
    (h : (on_time_step_prepare first_step max_age s).tracked = false) :
    ∀ k, trajectory max_age firsts acmrs bau_acmrs ylds bau_ylds
        (on_time_step_prepare first_step max_age s) k =
      on_time_step_prepare first_step max_age s := by
  intro k
  induction k with
  | zero => rfl
  | succ k ih =>
    show time_step (firsts k) max_age (acmrs k) (bau_acmrs k) (ylds k)
        (bau_ylds k) (trajectory max_age firsts acmrs bau_acmrs ylds bau_ylds
          (on_time_step_prepare first_step max_age s) k) =
      on_time_step_prepare first_step max_age s
    rw [ih]
    exact time_step_untracked (firsts k) max_age (acmrs k) (bau_acmrs k)
      (ylds k) (bau_ylds k) _ h

/-- C8 witness: a tracked stratum of age 200 is marked untracked by the
prepare handler (max_age 110) and the next three steps leave it exactly
unchanged. -/
theorem untracked_stratum_frozen_witness :
    ((on_time_step_prepare true 110
        (⟨200, true, 1, 0, 0, 0, 0, 0, 0, 1, 0, 0, 0, 0, 0, 0⟩ :
          Stratum)).tracked = false) ∧
    trajectory 110 (fun _ => false) (fun _ => 1) (fun _ => 1) (fun _ => 1)
        (fun _ => 1)
        (on_time_step_prepare true 110
          (⟨200, true, 1, 0, 0, 0, 0, 0, 0, 1, 0, 0, 0, 0, 0, 0⟩ : Stratum))
        3 =
      on_time_step_prepare true 110
        (⟨200, true, 1, 0, 0, 0, 0, 0, 0, 1, 0, 0, 0, 0, 0, 0⟩ : Stratum) := by
  have h : (on_time_step_prepare true 110
      (⟨200, true, 1, 0, 0, 0, 0, 0, 0, 1, 0, 0, 0, 0, 0, 0⟩ :
        Stratum)).tracked = false := by
    unfold on_time_step_prepare
    norm_num
  exact ⟨h, untracked_stratum_frozen true 110 (fun _ => false) (fun _ => 1)
    (fun _ => 1) (fun _ => 1) (fun _ => 1)
    (⟨200, true, 1, 0, 0, 0, 0, 0, 0, 1, 0, 0, 0, 0, 0, 0⟩ : Stratum) h 3⟩

end MSLT

namespace MSLT

/-- C4 counterexample: with one stratum of person-years 1 and ratio 0,
aggregate person-years 1 and aggregate YLD rate 1/2, the preconditions of the
claim hold (the rate is nonzero and the person-years sum to the aggregate) yet
the weighting denominator is zero and the conservation identity fails:
the returned rate is `ref * 0 = 0`, so the left side is 1 while the right side
is 1/2. -/
theorem disaggregate_YLD_conservation_fails_zero_denominator :
    ¬ ((∑ i, (![(1 : ℝ)]) i * (1 - disaggregate_YLD 1 (1/2) ![(1 : ℝ)] ![(0 : ℝ)] i)) =
      1 * (1 - 1/2)) := by
  have h : disaggregate_YLD 1 (1/2) ![(1 : ℝ)] ![(0 : ℝ)] =
      fun i => 1 * (1/2) / (∑ j, (![(0 : ℝ)]) j * (![(1 : ℝ)]) j) * (![(0 : ℝ)]) i := by
    unfold disaggregate_YLD
    rw [if_neg (by norm_num)]
  rw [h]
  norm_num

/-- C4 (amended): when additionally the linear-weighting denominator
`sum(yld_ratios * sub_person_years)` is nonzero, the disability disaggregator's
closed form conserves person-years exactly:
`sum(sub_py[i] * (1 - sub_yld_rates[i])) = agg_py * (1 - agg_yld)`. -/
theorem disaggregate_YLD_conservation {n : ℕ} (agg_py agg_yld : ℝ)
    (sub_py sub_yld_ratios : Fin n → ℝ)
    (hyld : agg_yld ≠ 0)
    (hsum : (∑ i, sub_py i) = agg_py)
    (hden : (∑ j, sub_yld_ratios j * sub_py j) ≠ 0) :
    (∑ i, sub_py i * (1 - disaggregate_YLD agg_py agg_yld sub_py sub_yld_ratios i)) =
      agg_py * (1 - agg_yld) := by
  unfold disaggregate_YLD
  rw [if_neg hyld]
  have expand : ∀ i : Fin n,
      sub_py i * (1 - agg_py * agg_yld / (∑ j, sub_yld_ratios j * sub_py j) * sub_yld_ratios i) =
      sub_py i - agg_py * agg_yld / (∑ j, sub_yld_ratios j * sub_py j) *
        (sub_yld_ratios i * sub_py i) := by
    intro i; ring
  rw [Finset.sum_congr rfl (fun i _ => expand i), Finset.sum_sub_distrib,
    ← Finset.mul_sum, hsum, div_mul_cancel₀ _ hden]
  ring

/-- C4 witness: the spec's worked example — aggregate person-years 1000,
aggregate YLD rate 1/10, person-years [600, 400], ratios [1/2, 3/2] — meets
the hypotheses and satisfies the conservation identity. -/
theorem disaggregate_YLD_conservation_witness :
    ((1 : ℝ)/10 ≠ 0 ∧ (∑ i, (![(600 : ℝ), 400]) i) = 1000 ∧
      (∑ j, (![(1 : ℝ)/2, 3/2]) j * (![(600 : ℝ), 400]) j) ≠ 0) ∧
    (∑ i, (![(600 : ℝ), 400]) i *
        (1 - disaggregate_YLD 1000 (1/10) ![(600 : ℝ), 400] ![(1 : ℝ)/2, 3/2] i)) =
      1000 * (1 - 1/10) := by
  refine ⟨⟨by norm_num, by norm_num [Fin.sum_univ_two], by norm_num [Fin.sum_univ_two]⟩, ?_⟩
  exact disaggregate_YLD_conservation 1000 (1/10) ![(600 : ℝ), 400] ![(1 : ℝ)/2, 3/2]
    (by norm_num) (by norm_num [Fin.sum_univ_two]) (by norm_num [Fin.sum_univ_two])

/-! ## The generic cohort disaggregation helper (`disaggregate.py`) -/

/-- The rows of the cohort of row `i` in a pandas-style table (rows indexed by
`Fin n`, columns by an abstract column type): all rows sharing row `i`'s age
and sex values, in table order. This is the group that
`pop_prop.loc[(pop_prop['age'] == row.age) & (pop_prop['sex'] == row.sex)]`
(disaggregate.py line 50) selects for the cohort containing row `i`. -/
noncomputable def cohortRows {n : ℕ} {Col : Type} (ageCol sexCol : Col)
    (pop : Fin n → Col → ℝ) (i : Fin n) : List (Fin n) :=
  letI : DecidableEq ℝ := Classical.decEq ℝ
  (List.finRange n).filter fun j =>
    decide (pop j ageCol = pop i ageCol ∧ pop j sexCol = pop i sexCol)

/-- Embeds `disaggregate_pop` (disaggregate.py lines 2-63). The first
component is the caller's table after the side-effecting column writes
`pop[rateName] = pop_agg_src; pop[propName] = pop_prop_src` of lines 36-37
(sequential writes: on a name collision the later `propName` write wins); the
second component is the returned disaggregated-rate column of line 63 — one
entry per input row, each row receiving its entry of its own cohort's
`disaggregate_func` result (the merge and `fillna` write-back of lines 58-61,
which scatters the per-cohort rates back by row index). The cohort arguments
are the group's summed scalar (line 41), the group's first-row rate
(`iloc[0]`, line 54) and the group's scalar and ratio columns. -/
noncomputable def disaggregate_pop {n : ℕ} {Col : Type} [DecidableEq Col]
    (ageCol sexCol : Col) (pop : Fin n → Col → ℝ)
    (scalarName rateName propName : Col)
    (pop_agg_src pop_prop_src : Fin n → ℝ)
    (disaggregate_func : ℝ → ℝ → List ℝ → List ℝ → List ℝ) :
    (Fin n → Col → ℝ) × List ℝ :=
  let pop1 : Fin n → Col → ℝ := fun i c =>
    if c = propName then pop_prop_src i
    else if c = rateName then pop_agg_src i
    else pop i c
  let rates : Fin n → ℝ := fun i =>
    let rows := cohortRows ageCol sexCol pop1 i
    (disaggregate_func ((rows.map fun j => pop1 j scalarName).sum)
      ((rows.map fun j => pop1 j rateName).headD 0)
      (rows.map fun j => pop1 j scalarName)
      (rows.map fun j => pop1 j propName)).getD (rows.indexOf i) 0
  (pop1, (List.finRange n).map rates)

/-- C9: `disaggregate_pop` overwrites the caller's `rateName` and `propName`
columns with the supplied aggregate-rate and ratio source values as a side
effect on the input view, leaves every other column of every row unchanged,
and returns a disaggregated-rate column with one entry per input row, aligned
to the input table's rows. -/
theorem disaggregate_pop_frame {n : ℕ} {Col : Type} [DecidableEq Col]
    (ageCol sexCol : Col) (pop : Fin n → Col → ℝ)
    (scalarName rateName propName : Col)
    (pop_agg_src pop_prop_src : Fin n → ℝ)
    (disaggregate_func : ℝ → ℝ → List ℝ → List ℝ → List ℝ)
    (hne : rateName ≠ propName) :
    (∀ i, (disaggregate_pop ageCol sexCol pop scalarName rateName propName
        pop_agg_src pop_prop_src disaggregate_func).1 i rateName =
      pop_agg_src i) ∧
    (∀ i, (disaggregate_pop ageCol sexCol pop scalarName rateName propName
        pop_agg_src pop_prop_src disaggregate_func).1 i propName =
      pop_prop_src i) ∧
    (∀ i c, c ≠ rateName → c ≠ propName →
      (disaggregate_pop ageCol sexCol pop scalarName rateName propName
        pop_agg_src pop_prop_src disaggregate_func).1 i c = pop i c) ∧
    (disaggregate_pop ageCol sexCol pop scalarName rateName propName
      pop_agg_src pop_prop_src disaggregate_func).2.length = n := by
  refine ⟨?_, ?_, ?_, ?_⟩
  · intro i
    show (if rateName = propName then pop_prop_src i
      else if rateName = rateName then pop_agg_src i else pop i rateName) =
      pop_agg_src i
    rw [if_neg hne, if_pos rfl]
  · intro i
    show (if propName = propName then pop_prop_src i
      else if propName = rateName then pop_agg_src i else pop i propName) =
      pop_prop_src i
    rw [if_pos rfl]
  · intro i c h1 h2
    show (if c = propName then pop_prop_src i
      else if c = rateName then pop_agg_src i else pop i c) = pop i c
    rw [if_neg h2, if_neg h1]
  · show ((List.finRange n).map _).length = n
    rw [List.length_map, List.length_finRange]

/-- C9 witness: a one-row table with numbered columns; the rate column (3)
receives the aggregate source value 5 as a side effect. -/
theorem disaggregate_pop_frame_witness :
    (3 : ℕ) ≠ 4 ∧
    (@disaggregate_pop 1 ℕ _ 0 1 (fun _ _ => 0) 2 3 4
        (fun _ => 5) (fun _ => 7) (fun _ _ _ l => l)).1 0 3 = 5 :=
  ⟨by decide,
    (@disaggregate_pop_frame 1 ℕ _ 0 1 (fun _ _ => 0) 2 3 4
      (fun _ => 5) (fun _ => 7) (fun _ _ _ l => l) (by decide)).1 0⟩

/-- C10: the division in the disability disaggregator is guarded only by the
`agg_yld == 0` fast path — whenever `agg_yld ≠ 0` the result is literally the
division by `sum(sub_yld_ratios * sub_py)` — and there are inputs with
`agg_yld ≠ 0` (all sub-population person-years zero) on which that
denominator is zero, so the division is unguarded. -/
theorem disaggregate_YLD_division_unguarded :
    (∀ (n : ℕ) (agg_py agg_yld : ℝ) (sub_py sub_yld_ratios : Fin n → ℝ),
      agg_yld ≠ 0 →
      disaggregate_YLD agg_py agg_yld sub_py sub_yld_ratios =
        fun i => agg_py * agg_yld / (∑ j, sub_yld_ratios j * sub_py j) *
          sub_yld_ratios i) ∧
    ((1 : ℝ) ≠ 0 ∧ (∑ j, (![(1 : ℝ), 2]) j * (![(0 : ℝ), 0]) j) = 0) := by
  refine ⟨?_, by norm_num, by simp⟩
  intro n agg_py agg_yld sub_py sub_yld_ratios h
  unfold disaggregate_YLD
  rw [if_neg h]

/-- C10 witness: at aggregate person-years 3, aggregate YLD rate 1, zero
sub-population person-years and ratios [1, 2], the nonzero-rate branch is the
raw division formula. -/
theorem disaggregate_YLD_division_unguarded_witness :
    (1 : ℝ) ≠ 0 ∧
    disaggregate_YLD 3 1 ![(0 : ℝ), 0] ![(1 : ℝ), 2] =
      fun i => 3 * 1 / (∑ j, (![(1 : ℝ), 2]) j * (![(0 : ℝ), 0]) j) * (![(1 : ℝ), 2]) i :=
  ⟨by norm_num, disaggregate_YLD_division_unguarded.1 2 3 1 ![(0 : ℝ), 0] ![(1 : ℝ), 2]
    (by norm_num)⟩

end MSLT
